import Mathlib

/-!
Verification of `m3f_matlab/mex/m3f_tib_sampleOffsets.c`.

The C file Gibbs-samples the per-user (`c`) and per-item (`d`) bias matrices
of the M3F-TIB model.  We embed it shallowly:

* machine doubles become exact rationals `ℚ`; the square root used for the
  Gaussian standard deviation is an abstract parameter `sqrtFn : ℚ → ℚ`
  (every theorem below holds for an arbitrary `sqrtFn`);
* the external GSL random-number backend is modelled by its contract:
  `gsl_ran_gaussian(rng, sigma)` returns `sigma` times a standard Gaussian
  deviate, and we pass the deviate consumed for entity `u`, topic `i`
  explicitly as `g u i`;
* the MATLAB arrays become flat `List`s read with `List.getD _ _ 0`
  (the caller contract keeps all reads in bounds) and written with
  `List.set`, mirroring the C index arithmetic `u*KM + i` and
  `(items[e]-1)*KU + (zU[e]-1)`;
* the OpenMP parallel-for over primary entities is modelled by a sequential
  loop: distinct entities write disjoint row segments of `c`, so the
  schedule is immaterial (this independence is itself proved below).
-/

namespace M3F

/-- Contract of the external RNG backend: `gsl_ran_gaussian` applied to a
standard deviate `g` and a standard deviation `sigma` yields `sigma * g`. -/
def gslRanGaussian (g sigma : ℚ) : ℚ := sigma * g

/-- The topic slot an interaction `e` (0-based) is accumulated into:
`i = zM[e] - 1` (line 102 of the C file). -/
def slot (zM : List ℕ) (e : ℕ) : ℕ := zM.getD e 0 - 1

/-- The per-interaction contribution (lines 104-107 of the C file):
`resids[e] - d[(items[e]-1)*KU + (zU[e]-1)]` when `KU > 0`, else `resids[e]`. -/
def contrib (KU : ℕ) (d : List ℚ) (items zU : List ℕ) (resids : List ℚ)
    (e : ℕ) : ℚ :=
  if 0 < KU then
    resids.getD e 0 - d.getD ((items.getD e 0 - 1) * KU + (zU.getD e 0 - 1)) 0
  else
    resids.getD e 0

/-- Sufficient-statistics loop of `sampleOffsets` (lines 100-109): for each
1-based example index `j` in the entity's adjacency list, with `e = j - 1`
and `i = zM[e] - 1`, do `sums[i] += contribution; counts[i] += 1`. -/
def accumStats (KU : ℕ) (d : List ℚ) (items zU zM : List ℕ) (resids : List ℚ) :
    List ℕ → List ℚ → List ℕ → List ℚ × List ℕ
  | [], sums, counts => (sums, counts)
  | j :: rest, sums, counts =>
    let e := j - 1
    let i := slot zM e
    accumStats KU d items zU zM resids rest
      (sums.set i (sums.getD i 0 + contrib KU d items zU resids e))
      (counts.set i (counts.getD i 0 + 1))

/-- One entity's new offset row (lines 90-116): the row accumulator starts
from zero (`fillArrayD(cPtr, KM, 0)` / `fillArrayI(counts[thread], KM, 0)`),
sufficient statistics are accumulated, and then for every topic `i`
`variance = 1/(invSigmaSqd0 + counts[i]*invSigmaSqd)` and
`cPtr[i] = (priorTerm + sums[i]*invSigmaSqd)*variance +
gsl_ran_gaussian(rng, sqrt(variance))`, where `priorTerm` is the constant
`ratio = c0*invSigmaSqd0` of line 80. -/
def sampleRow (sqrtFn : ℚ → ℚ) (KU KM : ℕ)
    (invSigmaSqd invSigmaSqd0 priorTerm : ℚ) (d : List ℚ)
    (items zU zM : List ℕ) (resids : List ℚ)
    (examps : List ℕ) (g : ℕ → ℚ) : List ℚ :=
  let stats := accumStats KU d items zU zM resids examps
      (List.replicate KM 0) (List.replicate KM 0)
  (List.range KM).map (fun i =>
    let variance := 1 / (invSigmaSqd0 + (stats.2.getD i 0 : ℚ) * invSigmaSqd)
    (priorTerm + stats.1.getD i 0 * invSigmaSqd) * variance
      + gslRanGaussian (g i) (sqrtFn variance))

/-- Write the entries of `row` into `c` starting at flat offset `off`
(the in-place stores through `cPtr = c + u*KM`). -/
def writeSeg : List ℚ → ℕ → List ℚ → List ℚ
  | c, _, [] => c
  | c, off, x :: xs => writeSeg (c.set off x) (off + 1) xs

/-- The loop over primary entities (lines 87-117), entity `u` writing the
segment `[u*KM, (u+1)*KM)` of the flat offset array. -/
def sampleLoop (row : ℕ → List ℚ) (KM : ℕ) : ℕ → ℕ → List ℚ → List ℚ
  | _, 0, c => c
  | u, n + 1, c => sampleLoop row KM (u + 1) n (writeSeg c (u * KM) (row u))

/-- `sampleOffsets` (lines 66-123).  Parameter order follows the C
signature; `users` is unused by the body, exactly as in the C.  `g u i` is
the standard Gaussian deviate consumed for entity `u`, topic `i`. -/
def sampleOffsets (sqrtFn : ℚ → ℚ) (users items : List ℕ)
    (exampsByUser : List (List ℕ)) (KU KM numUsers : ℕ)
    (invSigmaSqd invSigmaSqd0 c0 : ℚ) (c d : List ℚ)
    (zU zM : List ℕ) (resids : List ℚ) (g : ℕ → ℕ → ℚ) : List ℚ :=
  let priorTerm := c0 * invSigmaSqd0
  sampleLoop
    (fun u => sampleRow sqrtFn KU KM invSigmaSqd invSigmaSqd0 priorTerm d
      items zU zM resids (exampsByUser.getD u []) (g u))
    KM 0 numUsers c

/-- The caller-owned state reachable through the MEX input pointers. -/
structure Env where
  users : List ℕ
  items : List ℕ
  exampsByUser : List (List ℕ)
  exampsByItem : List (List ℕ)
  KU : ℕ
  KM : ℕ
  numUsers : ℕ
  numItems : ℕ
  sigmaSqd : ℚ
  sigmaSqd0 : ℚ
  c0 : ℚ
  d0 : ℚ
  c : List ℚ
  d : List ℚ
  zU : List ℕ
  zM : List ℕ
  resids : List ℚ

/-- Gate for one phase of the driver:
`(K > 0) && ((sampParams == NULL) || sampParams[k])`. -/
def phaseEnabled (K : ℕ) (flag : Option Bool) : Bool :=
  decide (0 < K) && (match flag with | none => true | some b => b)

/-- A single `sampleOffsets` call (user side) viewed as a transformer of the
whole caller-owned state: the C function stores only through the `c`
pointer (`cPtr[i] +=`, `cPtr[i] =`); its other writes go to transient
scratch (`counts`, the unpacked jagged-array headers) freed before
returning. -/
def sampleOffsetsCallC (sqrtFn : ℚ → ℚ) (env : Env)
    (invSigmaSqd invSigmaSqd0 : ℚ) (g : ℕ → ℕ → ℚ) : Env :=
  { env with
    c := sampleOffsets sqrtFn env.users env.items env.exampsByUser env.KU
      env.KM env.numUsers invSigmaSqd invSigmaSqd0 env.c0 env.c env.d
      env.zU env.zM env.resids g }

/-- `mexFunction` (lines 125-171): compute `invSigmaSqd = 1/sigmaSqd`,
`invSigmaSqd0 = 1/sigmaSqd0`, then run the gated c phase followed by the
gated d phase; the d phase reads the `c` left by the c phase.
`sampParams` models the optional seventh MATLAB argument
`[sampUserParams, sampItemParams]`; `gC`/`gD` are the standard Gaussian
deviates consumed by the two phases. -/
def mexFunction (sqrtFn : ℚ → ℚ) (env : Env)
    (sampParams : Option (Bool × Bool)) (gC gD : ℕ → ℕ → ℚ) : Env :=
  let invSigmaSqd := 1 / env.sigmaSqd
  let invSigmaSqd0 := 1 / env.sigmaSqd0
  let c1 := if phaseEnabled env.KM (Option.map Prod.fst sampParams) then
      sampleOffsets sqrtFn env.users env.items env.exampsByUser env.KU env.KM
        env.numUsers invSigmaSqd invSigmaSqd0 env.c0 env.c env.d env.zU env.zM
        env.resids gC
    else env.c
  let d1 := if phaseEnabled env.KU (Option.map Prod.snd sampParams) then
      sampleOffsets sqrtFn env.items env.users env.exampsByItem env.KM env.KU
        env.numItems invSigmaSqd invSigmaSqd0 env.d0 env.d c1 env.zM env.zU
        env.resids gD
    else env.d
  { env with c := c1, d := d1 }

/-! ### Helper lemmas about list reads and writes -/

theorem getD_set_self {α : Type*} (l : List α) (i : ℕ) (a x : α)
    (h : i < l.length) : (l.set i a).getD i x = a := by
  simp [List.getD_eq_getElem?_getD, List.getElem?_set_self h]

theorem getD_set_ne {α : Type*} (l : List α) (i j : ℕ) (a x : α)
    (h : i ≠ j) : (l.set i a).getD j x = l.getD j x := by
  simp [List.getD_eq_getElem?_getD, List.getElem?_set_ne h]

theorem writeSeg_length : ∀ (row c : List ℚ) (off : ℕ),
    (writeSeg c off row).length = c.length := by
  intro row
  induction row with
  | nil => intro c off; simp [writeSeg]
  | cons x xs ih => intro c off; simp [writeSeg, ih]

theorem getD_writeSeg_lt : ∀ (row c : List ℚ) (off k : ℕ), k < off →
    (writeSeg c off row).getD k 0 = c.getD k 0 := by
  intro row
  induction row with
  | nil => intro c off k _; simp [writeSeg]
  | cons x xs ih =>
    intro c off k hk
    have h1 : k < off + 1 := Nat.lt_succ_of_lt hk
    simp only [writeSeg]
    rw [ih _ _ _ h1, getD_set_ne _ _ _ _ _ (Nat.ne_of_gt hk)]

theorem getD_writeSeg_in : ∀ (row c : List ℚ) (off k : ℕ),
    off ≤ k → k < off + row.length → k < c.length →
    (writeSeg c off row).getD k 0 = row.getD (k - off) 0 := by
  intro row
  induction row with
  | nil => intro c off k h1 h2 _; simp at h2; omega
  | cons x xs ih =>
    intro c off k h1 h2 hc
    simp only [writeSeg]
    rcases Nat.eq_or_lt_of_le h1 with heq | hlt
    · subst heq
      rw [getD_writeSeg_lt _ _ _ _ (Nat.lt_succ_self _),
        getD_set_self _ _ _ _ hc]
      simp
    · have h1' : off + 1 ≤ k := hlt
      have h2' : k < (off + 1) + xs.length := by
        simp at h2; omega
      have hc' : k < (c.set off x).length := by simpa using hc
      rw [ih _ _ _ h1' h2' hc']
      have : k - off = (k - (off + 1)) + 1 := by omega
      rw [this]
      simp

theorem sampleLoop_length (row : ℕ → List ℚ) (KM : ℕ) :
    ∀ (n u : ℕ) (c : List ℚ), (sampleLoop row KM u n c).length = c.length := by
  intro n
  induction n with
  | zero => intro u c; simp [sampleLoop]
  | succ m ih => intro u c; simp [sampleLoop, ih, writeSeg_length]

theorem getD_sampleLoop_lt (row : ℕ → List ℚ) (KM : ℕ) :
    ∀ (n u0 : ℕ) (c : List ℚ) (k : ℕ), k < u0 * KM →
    (sampleLoop row KM u0 n c).getD k 0 = c.getD k 0 := by
  intro n
  induction n with
  | zero => intro u0 c k _; simp [sampleLoop]
  | succ m ih =>
    intro u0 c k hk
    have hk' : k < (u0 + 1) * KM :=
      lt_of_lt_of_le hk (Nat.mul_le_mul_right _ (Nat.le_succ _))
    simp only [sampleLoop]
    rw [ih _ _ _ hk', getD_writeSeg_lt _ _ _ _ hk]

theorem getD_sampleLoop (row : ℕ → List ℚ) (KM : ℕ)
    (hrow : ∀ v, (row v).length = KM) :
    ∀ (n u0 : ℕ) (c : List ℚ) (u i : ℕ), u0 ≤ u → u < u0 + n → i < KM →
    (u + 1) * KM ≤ c.length →
    (sampleLoop row KM u0 n c).getD (u * KM + i) 0 = (row u).getD i 0 := by
  intro n
  induction n with
  | zero => intro u0 c u i h1 h2 _ _; omega
  | succ m ih =>
    intro u0 c u i h1 h2 hi hc
    simp only [sampleLoop]
    rcases Nat.eq_or_lt_of_le h1 with heq | hlt
    · subst heq
      have hk : u0 * KM + i < (u0 + 1) * KM := by
        simp [Nat.succ_mul]; omega
      rw [getD_sampleLoop_lt _ _ _ _ _ _ hk]
      have hcb : u0 * KM + i < c.length := lt_of_lt_of_le hk hc
      rw [getD_writeSeg_in _ _ _ _ (Nat.le_add_right _ _)
        (by rw [hrow u0]; omega) hcb]
      simp
    · exact ih _ _ u i hlt (by omega) hi (by rw [writeSeg_length]; exact hc)

theorem sampleRow_length (sqrtFn : ℚ → ℚ) (KU KM : ℕ)
    (invSigmaSqd invSigmaSqd0 priorTerm : ℚ) (d : List ℚ)
    (items zU zM : List ℕ) (resids : List ℚ) (examps : List ℕ) (g : ℕ → ℚ) :
    (sampleRow sqrtFn KU KM invSigmaSqd invSigmaSqd0 priorTerm d items zU zM
      resids examps g).length = KM := by
  simp [sampleRow]

/-- Row decomposition: entry `(p, i)` of the array produced by
`sampleOffsets` is entry `i` of the row computed for entity `p` alone. -/
theorem sampleOffsets_getD (sqrtFn : ℚ → ℚ) (users items : List ℕ)
    (exampsByUser : List (List ℕ)) (KU KM numUsers : ℕ)
    (invSigmaSqd invSigmaSqd0 c0 : ℚ) (c d : List ℚ)
    (zU zM : List ℕ) (resids : List ℚ) (g : ℕ → ℕ → ℚ) (p i : ℕ)
    (hp : p < numUsers) (hi : i < KM) (hc : numUsers * KM ≤ c.length) :
    (sampleOffsets sqrtFn users items exampsByUser KU KM numUsers invSigmaSqd
      invSigmaSqd0 c0 c d zU zM resids g).getD (p * KM + i) 0 =
    (sampleRow sqrtFn KU KM invSigmaSqd invSigmaSqd0 (c0 * invSigmaSqd0) d
      items zU zM resids (exampsByUser.getD p []) (g p)).getD i 0 := by
  have hlen : (p + 1) * KM ≤ c.length :=
    le_trans (Nat.mul_le_mul_right _ hp) hc
  exact getD_sampleLoop _ _ (fun v => sampleRow_length _ _ _ _ _ _ _ _ _ _ _ _ _)
    numUsers 0 c p i (Nat.zero_le _) (by omega) hi hlen

/-- Characterization of the accumulation loop: starting from arbitrary
accumulator contents, slot `i` of the sums (resp. counts) ends up holding its
initial value plus the total contribution (resp. the number) of exactly those
interactions whose secondary-side topic selects slot `i`. -/
theorem accumStats_getD_eq (KU : ℕ) (d : List ℚ) (items zU : List ℕ)
    (resids : List ℚ) (zM : List ℕ) (i : ℕ) :
    ∀ (examps : List ℕ) (sums : List ℚ) (counts : List ℕ),
    i < sums.length → sums.length = counts.length →
    (accumStats KU d items zU zM resids examps sums counts).1.getD i 0 =
      sums.getD i 0 +
        (((examps.map (fun j => j - 1)).filter (fun e => slot zM e == i)).map
          (contrib KU d items zU resids)).sum ∧
    (accumStats KU d items zU zM resids examps sums counts).2.getD i 0 =
      counts.getD i 0 +
        ((examps.map (fun j => j - 1)).filter
          (fun e => slot zM e == i)).length := by
  intro examps
  induction examps with
  | nil => intro sums counts hi hlen; simp [accumStats]
  | cons j rest ih =>
    intro sums counts hi hlen
    simp only [accumStats, List.map_cons, List.filter_cons]
    by_cases h : slot zM (j - 1) = i
    · obtain ⟨ih1, ih2⟩ := ih
        (sums.set (slot zM (j - 1))
          (sums.getD (slot zM (j - 1)) 0 + contrib KU d items zU resids (j - 1)))
        (counts.set (slot zM (j - 1)) (counts.getD (slot zM (j - 1)) 0 + 1))
        (by simpa using hi) (by simpa using hlen)
      rw [h] at ih1 ih2
      rw [getD_set_self _ _ _ _ hi] at ih1
      rw [getD_set_self _ _ _ _ (hlen ▸ hi)] at ih2
      have hcond : (slot zM (j - 1) == i) = true := by simpa using h
      rw [hcond]
      simp only [if_true, List.map_cons, List.sum_cons, List.length_cons]
      rw [h]
      constructor
      · rw [ih1]; ring
      · rw [ih2]; omega
    · obtain ⟨ih1, ih2⟩ := ih
        (sums.set (slot zM (j - 1))
          (sums.getD (slot zM (j - 1)) 0 + contrib KU d items zU resids (j - 1)))
        (counts.set (slot zM (j - 1)) (counts.getD (slot zM (j - 1)) 0 + 1))
        (by simpa using hi) (by simpa using hlen)
      rw [getD_set_ne _ _ _ _ _ h] at ih1
      rw [getD_set_ne _ _ _ _ _ h] at ih2
      have hcond : (slot zM (j - 1) == i) = false := by simpa using h
      rw [hcond]
      simp only [Bool.false_eq_true, if_false]
      exact ⟨ih1, ih2⟩

/-- Adding one to a list entry in bounds raises the list total by one. -/
theorem sum_set_getD_add_one : ∀ (l : List ℕ) (i : ℕ), i < l.length →
    (l.set i (l.getD i 0 + 1)).sum = l.sum + 1 := by
  intro l
  induction l with
  | nil => intro i h; simp at h
  | cons x xs ih =>
    intro i h
    cases i with
    | zero =>
      rw [List.getD_cons_zero, List.set_cons_zero]
      simp only [List.sum_cons]
      omega
    | succ m =>
      have hm : m < xs.length := by simpa using h
      rw [List.getD_cons_succ, List.set_cons_succ]
      simp only [List.sum_cons, ih m hm]
      omega

/-- Each interaction whose slot is in range bumps the counts total by one. -/
theorem accumStats_counts_sum (KU : ℕ) (d : List ℚ) (items zU : List ℕ)
    (resids : List ℚ) (zM : List ℕ) :
    ∀ (examps : List ℕ) (sums : List ℚ) (counts : List ℕ),
    (∀ j ∈ examps, slot zM (j - 1) < counts.length) →
    (accumStats KU d items zU zM resids examps sums counts).2.sum =
      counts.sum + examps.length := by
  intro examps
  induction examps with
  | nil => intro sums counts _; simp [accumStats]
  | cons j rest ih =>
    intro sums counts hrange
    simp only [accumStats]
    rw [ih _ _ (fun j hj => by
      simpa using hrange j (List.mem_cons_of_mem _ hj))]
    rw [sum_set_getD_add_one _ _ (hrange j (List.mem_cons_self _ _))]
    simp [List.length_cons]
    omega

theorem getD_range_map (f : ℕ → ℚ) (n i : ℕ) (h : i < n) :
    ((List.range n).map f).getD i 0 = f i := by
  rw [List.getD_eq_getElem?_getD, List.getElem?_eq_getElem (by simpa using h)]
  simp

/-- Entry `i` of one entity's freshly sampled row, written out. -/
theorem sampleRow_getD (sqrtFn : ℚ → ℚ) (KU KM : ℕ)
    (invSigmaSqd invSigmaSqd0 priorTerm : ℚ) (d : List ℚ)
    (items zU zM : List ℕ) (resids : List ℚ) (examps : List ℕ) (g : ℕ → ℚ)
    (i : ℕ) (hi : i < KM) :
    (sampleRow sqrtFn KU KM invSigmaSqd invSigmaSqd0 priorTerm d items zU zM
      resids examps g).getD i 0 =
    (priorTerm +
        (accumStats KU d items zU zM resids examps (List.replicate KM 0)
          (List.replicate KM 0)).1.getD i 0 * invSigmaSqd) *
      (1 / (invSigmaSqd0 +
        ((accumStats KU d items zU zM resids examps (List.replicate KM 0)
          (List.replicate KM 0)).2.getD i 0 : ℚ) * invSigmaSqd)) +
    sqrtFn (1 / (invSigmaSqd0 +
        ((accumStats KU d items zU zM resids examps (List.replicate KM 0)
          (List.replicate KM 0)).2.getD i 0 : ℚ) * invSigmaSqd)) * g i := by
  simp only [sampleRow, gslRanGaussian]
  rw [getD_range_map _ _ _ hi]

theorem sampleOffsets_length (sqrtFn : ℚ → ℚ) (users items : List ℕ)
    (exampsByUser : List (List ℕ)) (KU KM numUsers : ℕ)
    (invSigmaSqd invSigmaSqd0 c0 : ℚ) (c d : List ℚ)
    (zU zM : List ℕ) (resids : List ℚ) (g : ℕ → ℕ → ℚ) :
    (sampleOffsets sqrtFn users items exampsByUser KU KM numUsers invSigmaSqd
      invSigmaSqd0 c0 c d zU zM resids g).length = c.length := by
  simp [sampleOffsets, sampleLoop_length]

theorem phaseEnabled_map_iff (K : ℕ) (sp : Option (Bool × Bool))
    (f : Bool × Bool → Bool) :
    phaseEnabled K (Option.map f sp) = true ↔
      (0 < K ∧ (sp = none ∨ Option.map f sp = some true)) := by
  cases sp <;> simp [phaseEnabled]

/-! ### The claims -/

/-- A small concrete fixture: one user, one item, one interaction with
residual 1, one topic per side, unit variances, zero prior means. -/
def envFixW : Env where
  users := [1]
  items := [1]
  exampsByUser := [[1]]
  exampsByItem := [[1]]
  KU := 1
  KM := 1
  numUsers := 1
  numItems := 1
  sigmaSqd := 1
  sigmaSqd0 := 1
  c0 := 0
  d0 := 0
  c := [0]
  d := [0]
  zU := [1]
  zM := [1]
  resids := [1]

/-- Claim C1: in `sampleOffsets`, each interaction `e` of a primary entity's
adjacency list is accumulated into the per-topic slot selected by the
secondary-side topic (`zM[e]` when users are primary), and its contribution
is `resids[e] - d[(items[e]-1)*KU + (zU[e]-1)]` when `KU > 0` and
`resids[e]` when `KU = 0`: slot `i` of the accumulated sums is exactly the
total of those contributions over the interactions bucketed there, and slot
`i` of the counts is their number. -/
theorem claimC1_accum_slots (KU KM : ℕ) (d : List ℚ) (items zU zM : List ℕ)
    (resids : List ℚ) (examps : List ℕ) (i : ℕ) (hi : i < KM) :
    (accumStats KU d items zU zM resids examps (List.replicate KM 0)
        (List.replicate KM 0)).1.getD i 0 =
      (((examps.map (fun j => j - 1)).filter (fun e => slot zM e == i)).map
        (fun e => if 0 < KU then
            resids.getD e 0 -
              d.getD ((items.getD e 0 - 1) * KU + (zU.getD e 0 - 1)) 0
          else resids.getD e 0)).sum ∧
    (accumStats KU d items zU zM resids examps (List.replicate KM 0)
        (List.replicate KM 0)).2.getD i 0 =
      ((examps.map (fun j => j - 1)).filter
        (fun e => slot zM e == i)).length := by
  obtain ⟨h1, h2⟩ := accumStats_getD_eq KU d items zU resids zM i examps
    (List.replicate KM 0) (List.replicate KM 0) (by simpa using hi) (by simp)
  constructor
  · rw [h1]
    have hfun : contrib KU d items zU resids = fun e =>
        if 0 < KU then
          resids.getD e 0 -
            d.getD ((items.getD e 0 - 1) * KU + (zU.getD e 0 - 1)) 0
        else resids.getD e 0 := rfl
    rw [hfun]
    simp
  · rw [h2]; simp

/-- Witness for C1 on a concrete two-interaction fixture. -/
theorem claimC1_accum_slots_witness :
    0 < 2 ∧
    ((accumStats 1 [7] [1, 1] [1, 1] [1, 2] [3, 5] [1, 2]
        (List.replicate 2 0) (List.replicate 2 0)).1.getD 0 0 =
      ((([1, 2].map (fun j => j - 1)).filter
          (fun e => slot [1, 2] e == 0)).map
        (fun e => if 0 < 1 then
            [3, 5].getD e 0 -
              [7].getD (([1, 1].getD e 0 - 1) * 1 + ([1, 1].getD e 0 - 1)) 0
          else [3, 5].getD e 0)).sum ∧
      (accumStats 1 [7] [1, 1] [1, 1] [1, 2] [3, 5] [1, 2]
        (List.replicate 2 0) (List.replicate 2 0)).2.getD 0 0 =
      (([1, 2].map (fun j => j - 1)).filter
        (fun e => slot [1, 2] e == 0)).length) :=
  ⟨by decide, claimC1_accum_slots 1 2 [7] [1, 1] [1, 1] [1, 2] [3, 5] [1, 2] 0
    (by decide)⟩

/-- Claim C2: the offset written by `sampleOffsets` for entity `p`, topic `i`
is `mean + sqrt(variance) * g` with
`variance = 1/(invSigmaSqd0 + count[i]*invSigmaSqd)` and
`mean = variance * (priorMean*invSigmaSqd0 + sum[i]*invSigmaSqd)`, where
`count`/`sum` are the sufficient statistics accumulated from `p`'s adjacency
list and `g` is the standard Gaussian deviate the RNG supplies for that
entry. -/
theorem claimC2_posterior_formula (sqrtFn : ℚ → ℚ) (users items : List ℕ)
    (exampsByUser : List (List ℕ)) (KU KM numUsers : ℕ)
    (invSigmaSqd invSigmaSqd0 c0 : ℚ) (c d : List ℚ) (zU zM : List ℕ)
    (resids : List ℚ) (g : ℕ → ℕ → ℚ) (p i : ℕ)
    (hp : p < numUsers) (hi : i < KM) (hc : c.length = numUsers * KM) :
    (sampleOffsets sqrtFn users items exampsByUser KU KM numUsers invSigmaSqd
        invSigmaSqd0 c0 c d zU zM resids g).getD (p * KM + i) 0 =
      (1 / (invSigmaSqd0 +
          ((accumStats KU d items zU zM resids (exampsByUser.getD p [])
            (List.replicate KM 0) (List.replicate KM 0)).2.getD i 0 : ℚ) *
          invSigmaSqd)) *
        (c0 * invSigmaSqd0 +
          (accumStats KU d items zU zM resids (exampsByUser.getD p [])
            (List.replicate KM 0) (List.replicate KM 0)).1.getD i 0 *
          invSigmaSqd) +
      sqrtFn (1 / (invSigmaSqd0 +
          ((accumStats KU d items zU zM resids (exampsByUser.getD p [])
            (List.replicate KM 0) (List.replicate KM 0)).2.getD i 0 : ℚ) *
          invSigmaSqd)) * g p i := by
  rw [sampleOffsets_getD _ _ _ _ _ _ _ _ _ _ _ _ _ _ _ _ _ _ hp hi (le_of_eq hc.symm),
    sampleRow_getD _ _ _ _ _ _ _ _ _ _ _ _ _ _ hi]
  ring

/-- Witness for C2 on a concrete one-interaction fixture. -/
theorem claimC2_posterior_formula_witness :
    (0 : ℕ) < 1 ∧
    (sampleOffsets (fun q => q) [1] [1] [[1]] 1 1 1 1 1 0 [0] [7] [1] [1] [4]
        (fun _ _ => 1)).getD (0 * 1 + 0) 0 =
      (1 / (1 +
          ((accumStats 1 [7] [1] [1] [1] [4] ([[1]].getD 0 [])
            (List.replicate 1 0) (List.replicate 1 0)).2.getD 0 0 : ℚ) * 1)) *
        (0 * 1 +
          (accumStats 1 [7] [1] [1] [1] [4] ([[1]].getD 0 [])
            (List.replicate 1 0) (List.replicate 1 0)).1.getD 0 0 * 1) +
      (fun q => q) (1 / (1 +
          ((accumStats 1 [7] [1] [1] [1] [4] ([[1]].getD 0 [])
            (List.replicate 1 0) (List.replicate 1 0)).2.getD 0 0 : ℚ) * 1)) *
        (1 : ℚ) :=
  ⟨by decide, claimC2_posterior_formula (fun q => q) [1] [1] [[1]] 1 1 1 1 1 0
    [0] [7] [1] [1] [4] (fun _ _ => 1) 0 0 (by decide) (by decide) (by decide)⟩

/-- If slot `i`'s count comes out zero, its sum is zero as well (the slot was
never touched, so it keeps its `fillArrayD` initialization). -/
theorem accumStats_sums_zero_of_counts_zero (KU KM : ℕ) (d : List ℚ)
    (items zU zM : List ℕ) (resids : List ℚ) (examps : List ℕ) (i : ℕ)
    (hi : i < KM)
    (hcount : (accumStats KU d items zU zM resids examps (List.replicate KM 0)
      (List.replicate KM 0)).2.getD i 0 = 0) :
    (accumStats KU d items zU zM resids examps (List.replicate KM 0)
      (List.replicate KM 0)).1.getD i 0 = 0 := by
  obtain ⟨h1, h2⟩ := accumStats_getD_eq KU d items zU resids zM i examps
    (List.replicate KM 0) (List.replicate KM 0) (by simpa using hi) (by simp)
  rw [h2] at hcount
  simp only [List.getD_eq_getElem?_getD, List.getElem?_replicate] at hcount
  have hnil : ((examps.map (fun j => j - 1)).filter
      (fun e => slot zM e == i)) = [] := by
    rcases List.eq_nil_or_concat ((examps.map (fun j => j - 1)).filter
      (fun e => slot zM e == i)) with hn | ⟨l, a, hl⟩
    · exact hn
    · exfalso
      rw [hl] at hcount
      simp at hcount
  rw [h1, hnil]
  simp

/-- Claim C3: a topic slot with zero accumulated count (in particular every
slot of an entity with an empty adjacency list) is resampled from the prior
exactly: the written offset is `c0 + sqrt(1/invSigmaSqd0) * g`. -/
theorem claimC3_prior_fallback (sqrtFn : ℚ → ℚ) (users items : List ℕ)
    (exampsByUser : List (List ℕ)) (KU KM numUsers : ℕ)
    (invSigmaSqd invSigmaSqd0 c0 : ℚ) (c d : List ℚ) (zU zM : List ℕ)
    (resids : List ℚ) (g : ℕ → ℕ → ℚ) (p i : ℕ)
    (hp : p < numUsers) (hi : i < KM) (hc : c.length = numUsers * KM)
    (h0 : invSigmaSqd0 ≠ 0)
    (hcount : (accumStats KU d items zU zM resids (exampsByUser.getD p [])
      (List.replicate KM 0) (List.replicate KM 0)).2.getD i 0 = 0) :
    (sampleOffsets sqrtFn users items exampsByUser KU KM numUsers invSigmaSqd
        invSigmaSqd0 c0 c d zU zM resids g).getD (p * KM + i) 0 =
      c0 + sqrtFn (1 / invSigmaSqd0) * g p i := by
  have hsum := accumStats_sums_zero_of_counts_zero KU KM d items zU zM resids
    (exampsByUser.getD p []) i hi hcount
  rw [sampleOffsets_getD _ _ _ _ _ _ _ _ _ _ _ _ _ _ _ _ _ _ hp hi (le_of_eq hc.symm),
    sampleRow_getD _ _ _ _ _ _ _ _ _ _ _ _ _ _ hi, hsum, hcount]
  simp only [Nat.cast_zero, zero_mul, add_zero]
  rw [mul_one_div, mul_div_cancel_right₀ _ h0]

/-- Witness for C3 on a fixture whose single entity has an empty adjacency
list. -/
theorem claimC3_prior_fallback_witness :
    (0 : ℕ) < 1 ∧ (1 : ℚ) ≠ 0 ∧
    (sampleOffsets (fun q => q) [] [] [[]] 1 1 1 1 1 5 [0] [] [] [] []
        (fun _ _ => 1)).getD (0 * 1 + 0) 0 =
      5 + (fun q => q) (1 / (1 : ℚ)) * (1 : ℚ) :=
  ⟨by decide, one_ne_zero,
    claimC3_prior_fallback (fun q => q) [] [] [[]] 1 1 1 1 1 5 [0] [] [] [] []
      (fun _ _ => 1) 0 0 (by decide) (by decide) (by decide) one_ne_zero
      (by decide)⟩

/-- Claim C8: after the accumulation loop, the counts summed over all topic
slots equal the length of the entity's adjacency list — every interaction
increments exactly one counter. -/
theorem claimC8_counts_total (KU KM : ℕ) (d : List ℚ) (items zU zM : List ℕ)
    (resids : List ℚ) (examps : List ℕ)
    (hrange : ∀ j ∈ examps, slot zM (j - 1) < KM) :
    ((accumStats KU d items zU zM resids examps (List.replicate KM 0)
      (List.replicate KM 0)).2).sum = examps.length := by
  rw [accumStats_counts_sum KU d items zU resids zM examps
    (List.replicate KM 0) (List.replicate KM 0)
    (fun j hj => by simpa using hrange j hj)]
  simp

/-- Witness for C8 on a concrete two-interaction fixture. -/
theorem claimC8_counts_total_witness :
    (∀ j ∈ [1, 2], slot [2, 1] (j - 1) < 2) ∧
    ((accumStats 1 [7] [1, 1] [1, 1] [2, 1] [3, 5] [1, 2]
      (List.replicate 2 0) (List.replicate 2 0)).2).sum = [1, 2].length :=
  ⟨by decide, claimC8_counts_total 1 2 [7] [1, 1] [1, 1] [2, 1] [3, 5] [1, 2]
    (by decide)⟩

/-- Claim C4: the user-side phase runs exactly when `KM > 0` and the flag
array is absent or its first entry is true; the item-side phase runs exactly
when `KU > 0` and the flag array is absent or its second entry is true (so
with the flags absent, both phases are enabled); otherwise the corresponding
offsets are left as they were. -/
theorem claimC4_gating (sqrtFn : ℚ → ℚ) (env : Env)
    (sp : Option (Bool × Bool)) (gC gD : ℕ → ℕ → ℚ) :
    ((mexFunction sqrtFn env sp gC gD).c =
      if 0 < env.KM ∧ (sp = none ∨ Option.map Prod.fst sp = some true) then
        sampleOffsets sqrtFn env.users env.items env.exampsByUser env.KU
          env.KM env.numUsers (1 / env.sigmaSqd) (1 / env.sigmaSqd0) env.c0
          env.c env.d env.zU env.zM env.resids gC
      else env.c) ∧
    ((mexFunction sqrtFn env sp gC gD).d =
      if 0 < env.KU ∧ (sp = none ∨ Option.map Prod.snd sp = some true) then
        sampleOffsets sqrtFn env.items env.users env.exampsByItem env.KM
          env.KU env.numItems (1 / env.sigmaSqd) (1 / env.sigmaSqd0) env.d0
          env.d (mexFunction sqrtFn env sp gC gD).c env.zM env.zU
          env.resids gD
      else env.d) := by
  have hC := phaseEnabled_map_iff env.KM sp Prod.fst
  have hD := phaseEnabled_map_iff env.KU sp Prod.snd
  constructor
  · simp only [mexFunction]
    by_cases h : 0 < env.KM ∧ (sp = none ∨ Option.map Prod.fst sp = some true)
    · rw [if_pos (hC.mpr h), if_pos h]
    · rw [if_neg (fun hb => h (hC.mp hb)), if_neg h]
  · simp only [mexFunction]
    by_cases h : 0 < env.KU ∧ (sp = none ∨ Option.map Prod.snd sp = some true)
    · rw [if_pos (hD.mpr h), if_pos h]
    · rw [if_neg (fun hb => h (hD.mp hb)), if_neg h]

/-- Claim C5: when both phases are enabled, the driver first rewrites `c`
with the user-side phase and then computes `d` with the item-side phase
reading exactly that freshly written `c` — sequential, not simultaneous,
Gibbs semantics. -/
theorem claimC5_sequential (sqrtFn : ℚ → ℚ) (env : Env)
    (sp : Option (Bool × Bool)) (gC gD : ℕ → ℕ → ℚ)
    (hU : phaseEnabled env.KM (Option.map Prod.fst sp) = true)
    (hI : phaseEnabled env.KU (Option.map Prod.snd sp) = true) :
    (mexFunction sqrtFn env sp gC gD).c =
      sampleOffsets sqrtFn env.users env.items env.exampsByUser env.KU env.KM
        env.numUsers (1 / env.sigmaSqd) (1 / env.sigmaSqd0) env.c0 env.c
        env.d env.zU env.zM env.resids gC ∧
    (mexFunction sqrtFn env sp gC gD).d =
      sampleOffsets sqrtFn env.items env.users env.exampsByItem env.KM env.KU
        env.numItems (1 / env.sigmaSqd) (1 / env.sigmaSqd0) env.d0 env.d
        (sampleOffsets sqrtFn env.users env.items env.exampsByUser env.KU
          env.KM env.numUsers (1 / env.sigmaSqd) (1 / env.sigmaSqd0) env.c0
          env.c env.d env.zU env.zM env.resids gC)
        env.zM env.zU env.resids gD := by
  constructor <;> simp only [mexFunction, hU, hI, if_true]

/-- Witness for C5: a concrete driver call with no flag array. -/
theorem claimC5_sequential_witness :
    phaseEnabled envFixW.KM
      (Option.map Prod.fst (none : Option (Bool × Bool))) = true ∧
    phaseEnabled envFixW.KU
      (Option.map Prod.snd (none : Option (Bool × Bool))) = true ∧
    ((mexFunction (fun q => q) envFixW none (fun _ _ => 0) (fun _ _ => 0)).c =
      sampleOffsets (fun q => q) envFixW.users envFixW.items
        envFixW.exampsByUser envFixW.KU envFixW.KM envFixW.numUsers
        (1 / envFixW.sigmaSqd) (1 / envFixW.sigmaSqd0) envFixW.c0 envFixW.c
        envFixW.d envFixW.zU envFixW.zM envFixW.resids (fun _ _ => 0) ∧
    (mexFunction (fun q => q) envFixW none (fun _ _ => 0) (fun _ _ => 0)).d =
      sampleOffsets (fun q => q) envFixW.items envFixW.users
        envFixW.exampsByItem envFixW.KM envFixW.KU envFixW.numItems
        (1 / envFixW.sigmaSqd) (1 / envFixW.sigmaSqd0) envFixW.d0 envFixW.d
        (sampleOffsets (fun q => q) envFixW.users envFixW.items
          envFixW.exampsByUser envFixW.KU envFixW.KM envFixW.numUsers
          (1 / envFixW.sigmaSqd) (1 / envFixW.sigmaSqd0) envFixW.c0 envFixW.c
          envFixW.d envFixW.zU envFixW.zM envFixW.resids (fun _ _ => 0))
        envFixW.zM envFixW.zU envFixW.resids (fun _ _ => 0)) :=
  ⟨by decide, by decide,
    claimC5_sequential (fun q => q) envFixW none (fun _ _ => 0)
      (fun _ _ => 0) (by decide) (by decide)⟩

/-- Claim C6: a disabled user-side phase leaves `c` untouched by the whole
driver call, and a disabled item-side phase leaves `d` untouched. -/
theorem claimC6_disabled_frame (sqrtFn : ℚ → ℚ) (env : Env)
    (sp : Option (Bool × Bool)) (gC gD : ℕ → ℕ → ℚ) :
    (phaseEnabled env.KM (Option.map Prod.fst sp) = false →
      (mexFunction sqrtFn env sp gC gD).c = env.c) ∧
    (phaseEnabled env.KU (Option.map Prod.snd sp) = false →
      (mexFunction sqrtFn env sp gC gD).d = env.d) := by
  constructor <;> intro h <;>
    simp only [mexFunction, h, Bool.false_eq_true, if_false]

/-- Witness for C6: a driver call with both flags false changes neither
offset array. -/
theorem claimC6_disabled_frame_witness :
    (mexFunction (fun q => q) envFixW (some (false, false)) (fun _ _ => 0)
      (fun _ _ => 0)).c = envFixW.c ∧
    (mexFunction (fun q => q) envFixW (some (false, false)) (fun _ _ => 0)
      (fun _ _ => 0)).d = envFixW.d :=
  ⟨(claimC6_disabled_frame (fun q => q) envFixW (some (false, false))
      (fun _ _ => 0) (fun _ _ => 0)).1 (by decide),
    (claimC6_disabled_frame (fun q => q) envFixW (some (false, false))
      (fun _ _ => 0) (fun _ _ => 0)).2 (by decide)⟩

/-- Claim C7: one `sampleOffsets` call mutates nothing in the caller-owned
state except the primary offset array, and within that array the entry
`(q, i)` it writes is exactly entry `i` of the row computed for entity `q`
from the (undisturbed) shared inputs — no entity writes another entity's
row. -/
theorem claimC7_frame (sqrtFn : ℚ → ℚ) (env : Env)
    (invSigmaSqd invSigmaSqd0 : ℚ) (g : ℕ → ℕ → ℚ)
    (hc : env.c.length = env.numUsers * env.KM) :
    ((sampleOffsetsCallC sqrtFn env invSigmaSqd invSigmaSqd0 g).d = env.d ∧
      (sampleOffsetsCallC sqrtFn env invSigmaSqd invSigmaSqd0 g).zU = env.zU ∧
      (sampleOffsetsCallC sqrtFn env invSigmaSqd invSigmaSqd0 g).zM = env.zM ∧
      (sampleOffsetsCallC sqrtFn env invSigmaSqd invSigmaSqd0 g).resids =
        env.resids ∧
      (sampleOffsetsCallC sqrtFn env invSigmaSqd invSigmaSqd0 g).users =
        env.users ∧
      (sampleOffsetsCallC sqrtFn env invSigmaSqd invSigmaSqd0 g).items =
        env.items ∧
      (sampleOffsetsCallC sqrtFn env invSigmaSqd invSigmaSqd0 g).exampsByUser =
        env.exampsByUser ∧
      (sampleOffsetsCallC sqrtFn env invSigmaSqd invSigmaSqd0 g).exampsByItem =
        env.exampsByItem) ∧
    (∀ q i, q < env.numUsers → i < env.KM →
      (sampleOffsetsCallC sqrtFn env invSigmaSqd invSigmaSqd0 g).c.getD
          (q * env.KM + i) 0 =
        (sampleRow sqrtFn env.KU env.KM invSigmaSqd invSigmaSqd0
          (env.c0 * invSigmaSqd0) env.d env.items env.zU env.zM env.resids
          (env.exampsByUser.getD q []) (g q)).getD i 0) := by
  refine ⟨⟨rfl, rfl, rfl, rfl, rfl, rfl, rfl, rfl⟩, fun q i hq hi => ?_⟩
  exact sampleOffsets_getD sqrtFn env.users env.items env.exampsByUser env.KU
    env.KM env.numUsers invSigmaSqd invSigmaSqd0 env.c0 env.c env.d env.zU
    env.zM env.resids g q i hq hi (le_of_eq hc.symm)

/-- Witness for C7 on a concrete one-user fixture. -/
theorem claimC7_frame_witness :
    envFixW.c.length = envFixW.numUsers * envFixW.KM ∧
    (sampleOffsetsCallC (fun q => q) envFixW 1 1 (fun _ _ => 0)).d =
      envFixW.d ∧
    (sampleOffsetsCallC (fun q => q) envFixW 1 1 (fun _ _ => 0)).c.getD
        (0 * envFixW.KM + 0) 0 =
      (sampleRow (fun q => q) envFixW.KU envFixW.KM 1 1 (envFixW.c0 * 1)
        envFixW.d envFixW.items envFixW.zU envFixW.zM envFixW.resids
        (envFixW.exampsByUser.getD 0 []) ((fun _ _ => (0 : ℚ)) 0)).getD 0 0 :=
  ⟨by decide,
    (claimC7_frame (fun q => q) envFixW 1 1 (fun _ _ => 0) (by decide)).1.1,
    (claimC7_frame (fun q => q) envFixW 1 1 (fun _ _ => 0) (by decide)).2 0 0
      (by decide) (by decide)⟩

/-- Claim C10: the offsets a `sampleOffsets` call writes do not depend on the
initial contents of the primary offset array — every row is zeroed before
accumulation and every entry overwritten — so two runs that differ only in
the initial primary offsets (same RNG deviates, all else equal) produce
identical arrays. -/
theorem claimC10_init_independent (sqrtFn : ℚ → ℚ) (users items : List ℕ)
    (exampsByUser : List (List ℕ)) (KU KM numUsers : ℕ)
    (invSigmaSqd invSigmaSqd0 c0 : ℚ) (cA cB d : List ℚ) (zU zM : List ℕ)
    (resids : List ℚ) (g : ℕ → ℕ → ℚ)
    (hA : cA.length = numUsers * KM) (hB : cB.length = numUsers * KM) :
    sampleOffsets sqrtFn users items exampsByUser KU KM numUsers invSigmaSqd
      invSigmaSqd0 c0 cA d zU zM resids g =
    sampleOffsets sqrtFn users items exampsByUser KU KM numUsers invSigmaSqd
      invSigmaSqd0 c0 cB d zU zM resids g := by
  have hlA := sampleOffsets_length sqrtFn users items exampsByUser KU KM
    numUsers invSigmaSqd invSigmaSqd0 c0 cA d zU zM resids g
  have hlB := sampleOffsets_length sqrtFn users items exampsByUser KU KM
    numUsers invSigmaSqd invSigmaSqd0 c0 cB d zU zM resids g
  apply List.ext_getElem (by rw [hlA, hlB, hA, hB])
  intro k h1 h2
  have hk : k < numUsers * KM := by rw [hlA, hA] at h1; exact h1
  have hKM : 0 < KM := by
    rcases Nat.eq_zero_or_pos KM with h | h
    · rw [h, Nat.mul_zero] at hk; omega
    · exact h
  have hi : k % KM < KM := Nat.mod_lt _ hKM
  have hu : k / KM < numUsers := (Nat.div_lt_iff_lt_mul hKM).mpr hk
  have hdecomp : (k / KM) * KM + k % KM = k := by
    rw [Nat.mul_comm]; exact Nat.div_add_mod k KM
  have eA : (sampleOffsets sqrtFn users items exampsByUser KU KM numUsers
      invSigmaSqd invSigmaSqd0 c0 cA d zU zM resids g).getD k 0 =
      (sampleOffsets sqrtFn users items exampsByUser KU KM numUsers
      invSigmaSqd invSigmaSqd0 c0 cB d zU zM resids g).getD k 0 := by
    rw [← hdecomp,
      sampleOffsets_getD _ _ _ _ _ _ _ _ _ _ _ _ _ _ _ _ _ _ hu hi
        (le_of_eq hA.symm),
      sampleOffsets_getD _ _ _ _ _ _ _ _ _ _ _ _ _ _ _ _ _ _ hu hi
        (le_of_eq hB.symm)]
  rw [List.getD_eq_getElem?_getD, List.getElem?_eq_getElem h1] at eA
  rw [List.getD_eq_getElem?_getD, List.getElem?_eq_getElem h2] at eA
  simpa using eA

/-- Witness for C10: two runs from different initial offset arrays agree. -/
theorem claimC10_init_independent_witness :
    ([(3 : ℚ)].length = 1 * 1) ∧ ([(8 : ℚ)].length = 1 * 1) ∧
    sampleOffsets (fun q => q) [1] [1] [[1]] 1 1 1 1 1 0 [3] [7] [1] [1] [4]
      (fun _ _ => 1) =
    sampleOffsets (fun q => q) [1] [1] [[1]] 1 1 1 1 1 0 [8] [7] [1] [1] [4]
      (fun _ _ => 1) :=
  ⟨by decide, by decide,
    claimC10_init_independent (fun q => q) [1] [1] [[1]] 1 1 1 1 1 0 [3] [8]
      [7] [1] [1] [4] (fun _ _ => 1) (by decide) (by decide)⟩

/-- In the 1-entity, 1-topic case the output of `sampleOffsets` is the
singleton holding entity 0's freshly sampled slot 0. -/
theorem sampleOffsets_one (sqrtFn : ℚ → ℚ) (users items : List ℕ)
    (exampsByUser : List (List ℕ)) (KU : ℕ) (invS invS0 c0 cinit : ℚ)
    (d : List ℚ) (zU zM : List ℕ) (resids : List ℚ) (g : ℕ → ℕ → ℚ) :
    sampleOffsets sqrtFn users items exampsByUser KU 1 1 invS invS0 c0
      [cinit] d zU zM resids g =
    [(sampleRow sqrtFn KU 1 invS invS0 (c0 * invS0) d items zU zM resids
      (exampsByUser.getD 0 []) (g 0)).getD 0 0] := by
  apply List.ext_getElem
  · rw [sampleOffsets_length]; rfl
  · intro k h1 h2
    have hk0 : k = 0 := by
      rw [sampleOffsets_length] at h1
      simp at h1
      omega
    subst hk0
    have hq := sampleOffsets_getD sqrtFn users items exampsByUser KU 1 1 invS
      invS0 c0 [cinit] d zU zM resids g 0 0 (by omega) (by omega) (by simp)
    norm_num at hq
    rw [List.getElem?_eq_getElem h1] at hq
    simp at hq
    simpa using hq

/-- Claim C9: the two phases do not commute.  On the one-interaction fixture
with all deviates fixed to 0, the driver's user-then-item order leaves a `d`
different from the `d` produced by running the item-side phase first (which
reads the original `c`; the subsequent user-side phase would not touch `d`). -/
theorem claimC9_order_sensitivity :
    (mexFunction (fun q => q) envFixW none (fun _ _ => 0) (fun _ _ => 0)).d ≠
    sampleOffsets (fun q => q) envFixW.items envFixW.users
      envFixW.exampsByItem envFixW.KM envFixW.KU envFixW.numItems
      (1 / envFixW.sigmaSqd) (1 / envFixW.sigmaSqd0) envFixW.d0 envFixW.d
      envFixW.c envFixW.zM envFixW.zU envFixW.resids (fun _ _ => 0) := by
  have h1 : sampleOffsets (fun q => q) [1] [1] [[1]] 1 1 1 1 1 0 [0] [0]
      [1] [1] [1] (fun _ _ => (0 : ℚ)) = [1 / 2] := by
    rw [sampleOffsets_one,
      sampleRow_getD _ _ _ _ _ _ _ _ _ _ _ _ _ 0 Nat.one_pos]
    norm_num [accumStats, contrib, slot]
  have h2 : sampleOffsets (fun q => q) [1] [1] [[1]] 1 1 1 1 1 0 [0] [1 / 2]
      [1] [1] [1] (fun _ _ => (0 : ℚ)) = [1 / 4] := by
    rw [sampleOffsets_one,
      sampleRow_getD _ _ _ _ _ _ _ _ _ _ _ _ _ 0 Nat.one_pos]
    norm_num [accumStats, contrib, slot]
  have hL : (mexFunction (fun q => q) envFixW none (fun _ _ => 0)
      (fun _ _ => 0)).d = [1 / 4] := by
    simp only [mexFunction, envFixW, phaseEnabled, Option.map]
    norm_num
    rw [h1, h2]
  have hR : sampleOffsets (fun q => q) envFixW.items envFixW.users
      envFixW.exampsByItem envFixW.KM envFixW.KU envFixW.numItems
      (1 / envFixW.sigmaSqd) (1 / envFixW.sigmaSqd0) envFixW.d0 envFixW.d
      envFixW.c envFixW.zM envFixW.zU envFixW.resids (fun _ _ => 0) =
      [1 / 2] := by
    show sampleOffsets (fun q => q) [1] [1] [[1]] 1 1 1 (1 / 1) (1 / 1) 0 [0]
      [0] [1] [1] [1] (fun _ _ => 0) = [1 / 2]
    norm_num
    exact h1
  rw [hL, hR]
  norm_num

end M3F
